import Mathlib

/-!
Verification of the in-memory todo data service of the `todo-app` repository.

The embedded code is `src/app/Services/todo.service.ts` (class `TodoService`) and
`src/app/Pipes/filter.pipe.ts` (class `FilterPipe`).  The service owns a mutable array
`todos : ITodo[]` and a boolean initialization flag; its operations are `getTodos`,
`getTodoById`, `addTodo`, `updateTodo` and `deleteTodo`.  We embed the state as an explicit
`ServiceState` record and each operation as a pure function from state (plus, for `getTodos`,
the outcome of the one outbound HTTP read) to result and next state.  JavaScript numbers that
hold ids are embedded as `Int`; the optional fields of the `ITodo` interface as `Option`.
The number of outbound HTTP reads an operation performs is returned explicitly where a claim
speaks about it.
-/

/-- The record entity, from `src/app/Models/ITodo` as used throughout the repository:
`id` and `userId` are optional numbers (`const newTodo: ITodo = { title: ..., completed: ... }`
is well-typed in the tests), `title` a string, `completed` a boolean. -/
structure ITodo where
  id : Option Int
  title : String
  completed : Bool
  userId : Option Int
  deriving Repr, DecidableEq

/-- The private mutable state of `TodoService`: the cached array `todos` and the
initialization flag (named `isInitialized` in the source). -/
structure ServiceState where
  todos : List ITodo
  isInit : Bool
  deriving Repr, DecidableEq

/-- Outcome of the one outbound HTTP GET that `getTodos` may issue: either the decoded
body (a list of records) or a transport error. -/
inductive FetchOutcome where
  | success (body : List ITodo)
  | failure (err : String)
  deriving Repr, DecidableEq

/-- JS `t.id || 0`: the id when present (a present `0` also yields `0`), else `0`;
on integers this is exactly `t.id.getD 0`. -/
def idOrZero (t : ITodo) : Int :=
  t.id.getD 0

/-- JS `this.todos.length > 0 ? Math.max(...this.todos.map((t) => t.id || 0)) : 0`:
the maximum of the 0-defaulted ids, or `0` for an empty cache.  (`Math.max` over a
non-empty spread is a left fold of the binary maximum.) -/
def maxTodoId (todos : List ITodo) : Int :=
  match todos.map idOrZero with
  | [] => 0
  | v :: vs => vs.foldl max v

/-- `TodoService.getTodos`: if initialized, return the cached array with no outbound read;
otherwise issue the one outbound read, keep the first 20 entries, store them, set the flag
and return them, or surface the transport error leaving the state untouched.  The third
component counts outbound reads performed by the call. -/
def getTodos (s : ServiceState) (fetch : FetchOutcome) :
    Except String (List ITodo) × ServiceState × Nat :=
  if s.isInit then
    (Except.ok s.todos, s, 0)
  else
    match fetch with
    | FetchOutcome.success body =>
        (Except.ok (body.take 20), ⟨body.take 20, true⟩, 1)
    | FetchOutcome.failure e => (Except.error e, s, 1)

/-- `TodoService.getTodoById`: `this.todos.find((t) => t.id === id)`, wrapped in `of` —
no outbound read, state untouched.  (`===` on the optional `t.id` against the number
argument matches exactly when the id is present and equal.) -/
def getTodoById (i : Int) (s : ServiceState) : Option ITodo × ServiceState × Nat :=
  (s.todos.find? (fun t => t.id == some i), s, 0)

/-- `TodoService.addTodo`: compute `maxId + 1`, build `{ ...todo, id: maxId + 1, userId: 1 }`
(the spread keeps `title` and `completed`, the explicit fields override `id` and `userId`),
`unshift` it onto the cached array, return it. -/
def addTodo (todo : ITodo) (s : ServiceState) : ITodo × ServiceState :=
  let newId := maxTodoId s.todos + 1
  let newTodo : ITodo := ⟨some newId, todo.title, todo.completed, some 1⟩
  (newTodo, ⟨newTodo :: s.todos, s.isInit⟩)

/-- `TodoService.updateTodo`: `findIndex((t) => t.id === todo.id)`; if found, assign
`{ ...todo }` (a full copy, equal to `todo` as a value) at that index; always return the
argument. -/
def updateTodo (todo : ITodo) (s : ServiceState) : ITodo × ServiceState :=
  match s.todos.findIdx? (fun t => t.id == todo.id) with
  | some i => (todo, ⟨s.todos.set i todo, s.isInit⟩)
  | none => (todo, s)

/-- `TodoService.deleteTodo`: `this.todos = this.todos.filter((t) => t.id !== id)`;
return whether the length decreased. -/
def deleteTodo (i : Int) (s : ServiceState) : Bool × ServiceState :=
  let remaining := s.todos.filter (fun t => t.id != some i)
  (remaining.length < s.todos.length, ⟨remaining, s.isInit⟩)

/-- A JavaScript value as it can appear in an `ITodo` field or as the `value` argument of
`FilterPipe.transform`: a number, a string, a boolean, or `undefined` (an absent field). -/
inductive JSVal where
  | num (n : Int)
  | str (s : String)
  | bool (b : Bool)
  | undef
  deriving Repr, DecidableEq

/-- The JS field access `item[field as keyof ITodo]`: the named field's value, `undefined`
when the field is absent on the record or the name is not a field of `ITodo`. -/
def fieldVal (t : ITodo) (field : String) : JSVal :=
  if field = "id" then
    match t.id with
    | some n => JSVal.num n
    | none => JSVal.undef
  else if field = "title" then JSVal.str t.title
  else if field = "completed" then JSVal.bool t.completed
  else if field = "userId" then
    match t.userId with
    | some n => JSVal.num n
    | none => JSVal.undef
  else JSVal.undef

namespace FilterPipe

/-- `FilterPipe.transform(items, field, value)`: return `items` unchanged when `items` is
null/undefined (embedded as `none`) or `field` is falsy (the empty string); otherwise
`items.filter((item) => item[field as keyof ITodo] === value)` with JS strict equality,
which on our value embedding is decidable equality of `JSVal` (in JS, same-type values
compare by value, different types never compare equal, and
`undefined === undefined` holds). -/
def transform (items : Option (List ITodo)) (field : String) (value : JSVal) :
    Option (List ITodo) :=
  match items with
  | none => none
  | some l =>
    if field = "" then some l
    else some (l.filter (fun item => fieldVal item field == value))

end FilterPipe

/-- Modelled from the spec: the spec's id-assignment sentence for `add` reads "computes a new
id as one greater than the maximum id currently present (0 if the cache is empty)".  This is
the maximum over the ids that are present on cached records, plus one (an empty cache yields
`1`).  It exists only to be compared with the id `addTodo` actually assigns. -/
def specAssignedId (todos : List ITodo) : Int :=
  (match todos.filterMap ITodo.id with
   | [] => 0
   | v :: vs => vs.foldl max v) + 1

/-- Run a sequence of `addTodo` calls, collecting the assigned ids (the `id` field of each
returned record, 0-defaulted) in call order together with the final state. -/
def runAdds : List ITodo → ServiceState → List Int × ServiceState
  | [], s => ([], s)
  | d :: ds, s =>
    let r := addTodo d s
    let rest := runAdds ds r.2
    (r.1.id.getD 0 :: rest.1, rest.2)

/-- Replace the first record whose id equals `todo.id` by `todo`; recursive
characterization of what `findIndex` followed by assignment at the found index does. -/
def replaceFirst : List ITodo → ITodo → List ITodo
  | [], _ => []
  | t :: ts, todo =>
    if t.id == todo.id then todo :: ts else t :: replaceFirst ts todo

/-- Ids are pairwise distinct among cached records. -/
def UniqueIds (l : List ITodo) : Prop :=
  l.Pairwise (fun a b => a.id ≠ b.id)

instance : DecidablePred UniqueIds := fun l =>
  List.instDecidablePairwise l

/-! ### Helper lemmas about folds, ids and the operations -/

theorem le_foldl_max (a : Int) (xs : List Int) : a ≤ xs.foldl max a := by
  induction xs generalizing a with
  | nil => exact le_refl a
  | cons x xs ih => exact le_trans (le_max_left a x) (ih (max a x))

theorem mem_le_foldl_max (a : Int) (xs : List Int) : ∀ x ∈ xs, x ≤ xs.foldl max a := by
  induction xs generalizing a with
  | nil => intro x hx; cases hx
  | cons y ys ih =>
    intro x hx
    rcases List.mem_cons.mp hx with h | h
    · subst h
      exact le_trans (le_max_right a x) (le_foldl_max _ _)
    · exact ih (max a y) x h

theorem foldl_max_eq_of_le (a : Int) (xs : List Int) (h : ∀ x ∈ xs, x ≤ a) :
    xs.foldl max a = a := by
  induction xs with
  | nil => rfl
  | cons y ys ih =>
    simp only [List.foldl_cons]
    rw [max_eq_left (h y (List.mem_cons_self _ _))]
    exact ih fun x hx => h x (List.mem_cons_of_mem _ hx)

theorem foldl_max_mem (a : Int) (xs : List Int) : xs.foldl max a ∈ a :: xs := by
  induction xs generalizing a with
  | nil => exact List.mem_cons_self _ _
  | cons y ys ih =>
    simp only [List.foldl_cons]
    rcases List.mem_cons.mp (ih (max a y)) with h | h
    · rcases max_choice a y with hm | hm
      · exact List.mem_cons.mpr (Or.inl (h.trans hm))
      · exact List.mem_cons_of_mem _ (List.mem_cons.mpr (Or.inl (h.trans hm)))
    · exact List.mem_cons_of_mem _ (List.mem_cons_of_mem _ h)

theorem idOrZero_le_maxTodoId {l : List ITodo} {t : ITodo} (ht : t ∈ l) :
    idOrZero t ≤ maxTodoId l := by
  cases l with
  | nil => cases ht
  | cons u us =>
    show idOrZero t ≤ (us.map idOrZero).foldl max (idOrZero u)
    rcases List.mem_cons.mp ht with h | h
    · subst h; exact le_foldl_max _ _
    · exact mem_le_foldl_max _ _ _ (List.mem_map_of_mem idOrZero h)

theorem maxTodoId_mem_or_nil (l : List ITodo) :
    l = [] ∨ ∃ t ∈ l, maxTodoId l = idOrZero t := by
  cases l with
  | nil => exact Or.inl rfl
  | cons u us =>
    refine Or.inr ?_
    have h := foldl_max_mem (idOrZero u) (us.map idOrZero)
    rcases List.mem_cons.mp h with h | h
    · exact ⟨u, List.mem_cons_self _ _, h⟩
    · rcases List.mem_map.mp h with ⟨t, ht, hv⟩
      exact ⟨t, List.mem_cons_of_mem _ ht, hv.symm⟩

theorem maxTodoId_cons_of_ge {t : ITodo} {l : List ITodo}
    (h : ∀ u ∈ l, idOrZero u ≤ idOrZero t) : maxTodoId (t :: l) = idOrZero t := by
  show (l.map idOrZero).foldl max (idOrZero t) = idOrZero t
  refine foldl_max_eq_of_le _ _ ?_
  intro x hx
  rcases List.mem_map.mp hx with ⟨u, hu, hv⟩
  exact hv ▸ h u hu

theorem addTodo_fst (todo : ITodo) (s : ServiceState) :
    (addTodo todo s).1 = ⟨some (maxTodoId s.todos + 1), todo.title, todo.completed, some 1⟩ :=
  rfl

theorem addTodo_state (todo : ITodo) (s : ServiceState) :
    (addTodo todo s).2 = ⟨(addTodo todo s).1 :: s.todos, s.isInit⟩ :=
  rfl

theorem maxTodoId_addTodo (todo : ITodo) (s : ServiceState) :
    maxTodoId (addTodo todo s).2.todos = maxTodoId s.todos + 1 := by
  have h : ∀ u ∈ s.todos, idOrZero u ≤ idOrZero (addTodo todo s).1 := by
    intro u hu
    have h1 := idOrZero_le_maxTodoId hu
    simp only [idOrZero] at h1 ⊢
    rw [addTodo_fst]
    simp only [Option.getD_some]
    omega
  have := maxTodoId_cons_of_ge h
  simpa [addTodo_fst, idOrZero] using this

theorem findIdx?_set_eq_replaceFirst (todo : ITodo) (l : List ITodo) :
    (match l.findIdx? (fun t => t.id == todo.id) with
     | some i => l.set i todo
     | none => l) = replaceFirst l todo := by
  induction l with
  | nil => rfl
  | cons t ts ih =>
    by_cases h : t.id = todo.id
    · simp [List.findIdx?_cons, h, replaceFirst, List.set]
    · rw [replaceFirst, if_neg (by simp [h])]
      rw [List.findIdx?_cons, if_neg (by simp [h]), List.findIdx?_succ]
      cases hfi : ts.findIdx? (fun t => t.id == todo.id) with
      | none =>
        rw [hfi] at ih
        show t :: ts = t :: replaceFirst ts todo
        exact congrArg (t :: ·) ih
      | some j =>
        rw [hfi] at ih
        show t :: ts.set j todo = t :: replaceFirst ts todo
        exact congrArg (t :: ·) ih

theorem updateTodo_todos (todo : ITodo) (s : ServiceState) :
    (updateTodo todo s).2.todos = replaceFirst s.todos todo := by
  have h := findIdx?_set_eq_replaceFirst todo s.todos
  cases hfi : s.todos.findIdx? (fun t => t.id == todo.id) with
  | none =>
    rw [hfi] at h
    simpa [updateTodo, hfi] using h
  | some i =>
    rw [hfi] at h
    simpa [updateTodo, hfi] using h

theorem updateTodo_isInit (todo : ITodo) (s : ServiceState) :
    (updateTodo todo s).2.isInit = s.isInit := by
  cases hfi : s.todos.findIdx? (fun t => t.id == todo.id) with
  | none => simp [updateTodo, hfi]
  | some i => simp [updateTodo, hfi]

theorem updateTodo_fst (todo : ITodo) (s : ServiceState) :
    (updateTodo todo s).1 = todo := by
  cases hfi : s.todos.findIdx? (fun t => t.id == todo.id) with
  | none => simp [updateTodo, hfi]
  | some i => simp [updateTodo, hfi]

theorem replaceFirst_map_id (todo : ITodo) (l : List ITodo) :
    (replaceFirst l todo).map ITodo.id = l.map ITodo.id := by
  induction l with
  | nil => rfl
  | cons t ts ih =>
    by_cases h : t.id = todo.id
    · simp [replaceFirst, h]
    · simp [replaceFirst, h, ih]

theorem replaceFirst_length (todo : ITodo) (l : List ITodo) :
    (replaceFirst l todo).length = l.length := by
  have h := congrArg List.length (replaceFirst_map_id todo l)
  simpa using h

theorem replaceFirst_eq_of_no_match (todo : ITodo) (l : List ITodo)
    (h : ∀ t ∈ l, t.id ≠ todo.id) : replaceFirst l todo = l := by
  induction l with
  | nil => rfl
  | cons t ts ih =>
    rw [replaceFirst, if_neg (by simp [h t (List.mem_cons_self _ _)])]
    exact congrArg (t :: ·) (ih fun u hu => h u (List.mem_cons_of_mem _ hu))

theorem replaceFirst_split (todo : ITodo) (l : List ITodo)
    (h : ∃ t ∈ l, t.id = todo.id) :
    ∃ l₁ t l₂, l = l₁ ++ t :: l₂ ∧ (∀ u ∈ l₁, u.id ≠ todo.id) ∧ t.id = todo.id ∧
      replaceFirst l todo = l₁ ++ todo :: l₂ := by
  induction l with
  | nil =>
    rcases h with ⟨t, ht, _⟩
    cases ht
  | cons u us ih =>
    by_cases hu : u.id = todo.id
    · refine ⟨[], u, us, rfl, ?_, hu, ?_⟩
      · intro x hx
        cases hx
      · simp [replaceFirst, hu]
    · rcases h with ⟨t, ht, hid⟩
      have ht' : t ∈ us := by
        rcases List.mem_cons.mp ht with h1 | h1
        · subst h1; exact absurd hid hu
        · exact h1
      rcases ih ⟨t, ht', hid⟩ with ⟨l₁, t', l₂, heq, hnm, hid', hrf⟩
      refine ⟨u :: l₁, t', l₂, by simp [heq], ?_, hid', ?_⟩
      · intro x hx
        rcases List.mem_cons.mp hx with h1 | h1
        · subst h1; exact hu
        · exact hnm x h1
      · rw [replaceFirst, if_neg (by simp [hu]), hrf]
        rfl

theorem uniqueIds_iff_map (l : List ITodo) :
    UniqueIds l ↔ (l.map ITodo.id).Pairwise (fun a b => a ≠ b) := by
  rw [UniqueIds, List.pairwise_map]

theorem uniqueIds_addTodo (todo : ITodo) (s : ServiceState) (h : UniqueIds s.todos) :
    UniqueIds (addTodo todo s).2.todos := by
  rw [addTodo_state]
  refine List.Pairwise.cons ?_ h
  intro b hb heq
  rw [addTodo_fst] at heq
  cases hbid : b.id with
  | none => rw [hbid] at heq; cases heq
  | some v =>
    rw [hbid] at heq
    have hv : v = maxTodoId s.todos + 1 := by
      have := heq.symm
      simpa using this
    have hle : idOrZero b ≤ maxTodoId s.todos := idOrZero_le_maxTodoId hb
    rw [idOrZero, hbid] at hle
    simp only [Option.getD_some] at hle
    omega

theorem uniqueIds_updateTodo (todo : ITodo) (s : ServiceState) (h : UniqueIds s.todos) :
    UniqueIds (updateTodo todo s).2.todos := by
  rw [uniqueIds_iff_map, updateTodo_todos, replaceFirst_map_id, ← uniqueIds_iff_map]
  exact h

theorem uniqueIds_deleteTodo (i : Int) (s : ServiceState) (h : UniqueIds s.todos) :
    UniqueIds (deleteTodo i s).2.todos :=
  List.Pairwise.sublist (List.filter_sublist s.todos) h

theorem runAdds_cons (d : ITodo) (ds : List ITodo) (s : ServiceState) :
    runAdds (d :: ds) s =
      ((addTodo d s).1.id.getD 0 :: (runAdds ds (addTodo d s).2).1,
       (runAdds ds (addTodo d s).2).2) :=
  rfl

theorem runAdds_ids_spec (ds : List ITodo) (s : ServiceState) :
    (runAdds ds s).1.Pairwise (fun a b => a < b) ∧
    ∀ x ∈ (runAdds ds s).1, maxTodoId s.todos < x := by
  induction ds generalizing s with
  | nil =>
    refine ⟨List.Pairwise.nil, ?_⟩
    intro x hx
    cases hx
  | cons d ds ih =>
    obtain ⟨hp, hgt⟩ := ih (addTodo d s).2
    have hid : (addTodo d s).1.id.getD 0 = maxTodoId s.todos + 1 := by
      rw [addTodo_fst]
      rfl
    have hmax : maxTodoId (addTodo d s).2.todos = maxTodoId s.todos + 1 :=
      maxTodoId_addTodo d s
    rw [runAdds_cons]
    constructor
    · refine List.Pairwise.cons ?_ hp
      intro b hb
      have := hgt b hb
      rw [hmax] at this
      omega
    · intro x hx
      rcases List.mem_cons.mp hx with h | h
      · rw [h, hid]
        omega
      · have := hgt x h
        rw [hmax] at this
        omega

theorem countP_add_countP_not (p : ITodo → Bool) (l : List ITodo) :
    l.countP p + l.countP (fun a => !p a) = l.length := by
  induction l with
  | nil => rfl
  | cons x xs ih =>
    by_cases h : p x
    · simp [List.countP_cons, h]
      omega
    · simp [List.countP_cons, h]
      omega

theorem filterMap_id_of_all_present (l : List ITodo) (h : ∀ t ∈ l, t.id.isSome) :
    l.filterMap ITodo.id = l.map idOrZero := by
  induction l with
  | nil => rfl
  | cons t ts ih =>
    cases hid : t.id with
    | none =>
      have := h t (List.mem_cons_self _ _)
      rw [hid] at this
      cases this
    | some v =>
      rw [List.filterMap_cons, hid, List.map_cons]
      rw [ih fun u hu => h u (List.mem_cons_of_mem _ hu)]
      simp [idOrZero, hid]

theorem specAssignedId_eq_of_all_present (l : List ITodo) (h : ∀ t ∈ l, t.id.isSome) :
    specAssignedId l = maxTodoId l + 1 := by
  rw [specAssignedId, maxTodoId, filterMap_id_of_all_present l h]

/-! ### Claim theorems -/

/-- Claim C1, counterexample: on the cache `[{id:-3,...}, {id:undefined,...}]` the maximum id
currently present is `-3`, so the claim says the new record gets id `-2`; `addTodo` instead
coerces the absent id to `0` (JS `t.id || 0`) and assigns id `1`.  The claim as stated is
therefore false for this cache state. -/
theorem addTodo_claimed_id_counterexample :
    (addTodo ⟨none, "Y", false, none⟩
        ⟨[⟨some (-3), "a", false, some 1⟩, ⟨none, "b", false, some 1⟩], false⟩).1.id ≠
      some (specAssignedId [⟨some (-3), "a", false, some 1⟩, ⟨none, "b", false, some 1⟩]) ∧
    (addTodo ⟨none, "Y", false, none⟩
        ⟨[⟨some (-3), "a", false, some 1⟩, ⟨none, "b", false, some 1⟩], false⟩).1.id =
      some 1 ∧
    specAssignedId [⟨some (-3), "a", false, some 1⟩, ⟨none, "b", false, some 1⟩] = -2 :=
  ⟨by decide, by decide, by decide⟩

/-- Claim C1 as amended: `addTodo` assigns the new record the id one greater than the maximum
of the cached records' 0-defaulted ids (a record with an absent id counts as `0`; `0` if the
cache is empty) — which agrees with "one greater than the maximum id currently present"
whenever every cached record has an id.  It stamps the draft with that id and the default
owner, inserts the stamped record at the front, and returns it; it never fails (it is total).
The scenarios hold: on an empty cache the new id is `1` and the record is the single element
at index 0, and on a cache holding one record with id `5` the new id is `6`. -/
theorem addTodo_amended_spec (draft t5 : ITodo) (s : ServiceState) (b : Bool) :
    (addTodo draft s).1.id = some (maxTodoId s.todos + 1) ∧
    (addTodo draft s).1.title = draft.title ∧
    (addTodo draft s).1.completed = draft.completed ∧
    (addTodo draft s).1.userId = some 1 ∧
    (addTodo draft s).2.todos = (addTodo draft s).1 :: s.todos ∧
    (∀ t ∈ s.todos, idOrZero t < maxTodoId s.todos + 1) ∧
    (s.todos ≠ [] → ∃ t ∈ s.todos, maxTodoId s.todos + 1 = idOrZero t + 1) ∧
    ((∀ t ∈ s.todos, t.id.isSome) →
      (addTodo draft s).1.id = some (specAssignedId s.todos)) ∧
    (addTodo draft ⟨[], b⟩).1.id = some 1 ∧
    (addTodo draft ⟨[], b⟩).2.todos = [(addTodo draft ⟨[], b⟩).1] ∧
    (t5.id = some 5 → (addTodo draft ⟨[t5], b⟩).1.id = some 6) := by
  refine ⟨rfl, rfl, rfl, rfl, rfl, ?_, ?_, ?_, rfl, rfl, ?_⟩
  · intro t ht
    have := idOrZero_le_maxTodoId ht
    omega
  · intro hne
    rcases maxTodoId_mem_or_nil s.todos with h | ⟨t, ht, hmax⟩
    · exact absurd h hne
    · exact ⟨t, ht, by omega⟩
  · intro h
    rw [specAssignedId_eq_of_all_present s.todos h]
    rfl
  · intro h
    have hmax : maxTodoId [t5] = 5 := by
      show ([] : List Int).foldl max (idOrZero t5) = 5
      simp [idOrZero, h]
    show some (maxTodoId [t5] + 1) = some 6
    rw [hmax]
    rfl

/-- Witness for the amended C1 theorem: a concrete non-empty cache `[{id:5,...}]` whose
records all carry ids; the assigned id is `6`, agreeing there with the spec's description. -/
theorem addTodo_amended_spec_witness :
    ([(⟨some 5, "a", false, some 1⟩ : ITodo)] ≠ []) ∧
    (∀ t ∈ ([⟨some 5, "a", false, some 1⟩] : List ITodo), t.id.isSome) ∧
    ((⟨some 5, "a", false, some 1⟩ : ITodo).id = some 5) ∧
    (∃ t ∈ ([⟨some 5, "a", false, some 1⟩] : List ITodo),
      maxTodoId [⟨some 5, "a", false, some 1⟩] + 1 = idOrZero t + 1) ∧
    (addTodo ⟨none, "X", false, none⟩ ⟨[⟨some 5, "a", false, some 1⟩], false⟩).1.id =
      some (specAssignedId [⟨some 5, "a", false, some 1⟩]) ∧
    (addTodo ⟨none, "X", false, none⟩ ⟨[⟨some 5, "a", false, some 1⟩], false⟩).1.id =
      some 6 := by
  have h := addTodo_amended_spec ⟨none, "X", false, none⟩ ⟨some 5, "a", false, some 1⟩
    ⟨[⟨some 5, "a", false, some 1⟩], false⟩ false
  obtain ⟨-, -, -, -, -, -, h7, h8, -, -, h11⟩ := h
  exact ⟨by decide, by decide, by decide, h7 (by decide), h8 (by decide), h11 (by decide)⟩

/-- Claim C2: `updateTodo` always returns its argument, never changes the cache length or the
initialization flag; when some cached record has the argument's id it replaces exactly the
first such record with a full copy of the argument, leaving the records before and after it
unchanged; when no cached record matches, the state is completely unchanged and the call
still returns the argument as if it succeeded (no error is ever raised — the operation is
total).  The matching and non-matching cases are stated over independent state/record
binders (`s`, `todo` versus `sn`, `todon`). -/
theorem updateTodo_spec (s sn : ServiceState) (todo todon : ITodo) :
    (updateTodo todo s).1 = todo ∧
    (updateTodo todo s).2.todos.length = s.todos.length ∧
    (updateTodo todo s).2.isInit = s.isInit ∧
    ((∃ t ∈ s.todos, t.id = todo.id) →
      ∃ l₁ t l₂, s.todos = l₁ ++ t :: l₂ ∧ t.id = todo.id ∧ (∀ u ∈ l₁, u.id ≠ todo.id) ∧
        (updateTodo todo s).2.todos = l₁ ++ todo :: l₂) ∧
    ((∀ t ∈ sn.todos, t.id ≠ todon.id) → updateTodo todon sn = (todon, sn)) := by
  refine ⟨updateTodo_fst todo s, ?_, updateTodo_isInit todo s, ?_, ?_⟩
  · rw [updateTodo_todos, replaceFirst_length]
  · intro h
    rcases replaceFirst_split todo s.todos h with ⟨l₁, t, l₂, heq, hnm, hid, hrf⟩
    exact ⟨l₁, t, l₂, heq, hid, hnm, by rw [updateTodo_todos, hrf]⟩
  · intro h
    have h1 := updateTodo_todos todon sn
    rw [replaceFirst_eq_of_no_match todon sn.todos h] at h1
    have h2 := updateTodo_isInit todon sn
    have hst : (updateTodo todon sn).2 = sn :=
      calc (updateTodo todon sn).2
          = ⟨(updateTodo todon sn).2.todos, (updateTodo todon sn).2.isInit⟩ := rfl
        _ = ⟨sn.todos, sn.isInit⟩ := by rw [h1, h2]
        _ = sn := rfl
    calc updateTodo todon sn
        = ((updateTodo todon sn).1, (updateTodo todon sn).2) := rfl
      _ = (todon, sn) := by rw [updateTodo_fst, hst]

/-- Witness for the C2 theorem on a concrete two-record cache: updating a record with the
matching id `2` replaces exactly that record, and updating with the unmatched id `9` leaves
the state untouched while still returning the argument. -/
theorem updateTodo_spec_witness :
    (∃ t ∈ ([⟨some 1, "a", false, some 1⟩, ⟨some 2, "b", false, some 1⟩] : List ITodo),
      t.id = (⟨some 2, "c", true, some 7⟩ : ITodo).id) ∧
    (∃ l₁ t l₂,
      ([⟨some 1, "a", false, some 1⟩, ⟨some 2, "b", false, some 1⟩] : List ITodo) =
        l₁ ++ t :: l₂ ∧
      t.id = (⟨some 2, "c", true, some 7⟩ : ITodo).id ∧
      (∀ u ∈ l₁, u.id ≠ (⟨some 2, "c", true, some 7⟩ : ITodo).id) ∧
      (updateTodo ⟨some 2, "c", true, some 7⟩
          ⟨[⟨some 1, "a", false, some 1⟩, ⟨some 2, "b", false, some 1⟩], true⟩).2.todos =
        l₁ ++ ⟨some 2, "c", true, some 7⟩ :: l₂) ∧
    updateTodo ⟨some 9, "d", false, none⟩
        ⟨[⟨some 1, "a", false, some 1⟩, ⟨some 2, "b", false, some 1⟩], true⟩ =
      (⟨some 9, "d", false, none⟩,
       ⟨[⟨some 1, "a", false, some 1⟩, ⟨some 2, "b", false, some 1⟩], true⟩) := by
  have h := updateTodo_spec
    ⟨[⟨some 1, "a", false, some 1⟩, ⟨some 2, "b", false, some 1⟩], true⟩
    ⟨[⟨some 1, "a", false, some 1⟩, ⟨some 2, "b", false, some 1⟩], true⟩
    ⟨some 2, "c", true, some 7⟩ ⟨some 9, "d", false, none⟩
  exact ⟨by decide, h.2.2.2.1 (by decide), h.2.2.2.2 (by decide)⟩

/-- Claim C3: an uninitialized `getTodos` issues exactly one outbound read, keeps at most the
first 20 returned entries, stores them as the cache, sets the flag and returns them; an
initialized `getTodos` performs no outbound read and immediately returns the cached sequence.
Hence two successive calls starting uninitialized, the first resolving successfully, perform
exactly one outbound read in total and the second returns the cached sequence.  The
uninitialized and initialized cases are stated over independent state binders (`s`, `si`). -/
theorem getTodos_spec (s si : ServiceState) (body : List ITodo) (f g : FetchOutcome) :
    (s.isInit = false →
      getTodos s (FetchOutcome.success body) =
        (Except.ok (body.take 20), ⟨body.take 20, true⟩, 1)) ∧
    (body.take 20).length ≤ 20 ∧
    (si.isInit = true → getTodos si f = (Except.ok si.todos, si, 0)) ∧
    (s.isInit = false →
      (getTodos s (FetchOutcome.success body)).2.2 +
        (getTodos (getTodos s (FetchOutcome.success body)).2.1 g).2.2 = 1 ∧
      (getTodos (getTodos s (FetchOutcome.success body)).2.1 g).1 =
        Except.ok (body.take 20)) := by
  refine ⟨?_, List.length_take_le _ _, ?_, ?_⟩
  · intro h
    simp [getTodos, h]
  · intro h
    simp [getTodos, h]
  · intro h
    simp [getTodos, h]

/-- Witness for the C3 theorem: a fresh service, a 2-element body; the single fetch happens
on the first call only and the second call replays the cache. -/
theorem getTodos_spec_witness :
    ((⟨[], false⟩ : ServiceState).isInit = false) ∧
    ((⟨[⟨some 1, "a", false, some 1⟩], true⟩ : ServiceState).isInit = true) ∧
    getTodos ⟨[], false⟩
        (FetchOutcome.success [⟨some 1, "a", false, some 1⟩, ⟨some 2, "b", true, some 1⟩]) =
      (Except.ok [⟨some 1, "a", false, some 1⟩, ⟨some 2, "b", true, some 1⟩],
       ⟨[⟨some 1, "a", false, some 1⟩, ⟨some 2, "b", true, some 1⟩], true⟩, 1) ∧
    getTodos ⟨[⟨some 1, "a", false, some 1⟩], true⟩ (FetchOutcome.failure "down") =
      (Except.ok [⟨some 1, "a", false, some 1⟩], ⟨[⟨some 1, "a", false, some 1⟩], true⟩, 0) ∧
    (getTodos ⟨[], false⟩
        (FetchOutcome.success [⟨some 1, "a", false, some 1⟩, ⟨some 2, "b", true, some 1⟩])).2.2 +
      (getTodos
        (getTodos ⟨[], false⟩
          (FetchOutcome.success
            [⟨some 1, "a", false, some 1⟩, ⟨some 2, "b", true, some 1⟩])).2.1
        (FetchOutcome.failure "down")).2.2 = 1 := by
  have h := getTodos_spec ⟨[], false⟩ ⟨[⟨some 1, "a", false, some 1⟩], true⟩
    [⟨some 1, "a", false, some 1⟩, ⟨some 2, "b", true, some 1⟩]
    (FetchOutcome.failure "down") (FetchOutcome.failure "down")
  exact ⟨rfl, rfl, h.1 rfl, h.2.2.1 rfl, (h.2.2.2 rfl).1⟩

/-- Claim C4: when the outbound read fails, an uninitialized `getTodos` surfaces the
transport error, the (empty) cache stays empty, the flag stays unset, the failing call
performed its one outbound read, and a subsequent call issues an outbound read again
(whatever its outcome `f`). -/
theorem getTodos_failure_spec (s : ServiceState) (e : String) (f : FetchOutcome)
    (h : s.isInit = false) (he : s.todos = []) :
    getTodos s (FetchOutcome.failure e) = (Except.error e, s, 1) ∧
    (getTodos s (FetchOutcome.failure e)).2.1.todos = [] ∧
    (getTodos s (FetchOutcome.failure e)).2.1.isInit = false ∧
    (getTodos (getTodos s (FetchOutcome.failure e)).2.1 f).2.2 = 1 := by
  refine ⟨by simp [getTodos, h], by simp [getTodos, h, he], by simp [getTodos, h], ?_⟩
  have hs : (getTodos s (FetchOutcome.failure e)).2.1 = s := by simp [getTodos, h]
  rw [hs]
  cases f with
  | success body => simp [getTodos, h]
  | failure e2 => simp [getTodos, h]

/-- Witness for the C4 theorem: a fresh service and a simulated transport failure. -/
theorem getTodos_failure_spec_witness :
    ((⟨[], false⟩ : ServiceState).isInit = false) ∧
    ((⟨[], false⟩ : ServiceState).todos = []) ∧
    getTodos ⟨[], false⟩ (FetchOutcome.failure "down") =
      (Except.error "down", ⟨[], false⟩, 1) ∧
    (getTodos (getTodos ⟨[], false⟩ (FetchOutcome.failure "down")).2.1
        (FetchOutcome.success [⟨some 1, "a", false, some 1⟩])).2.2 = 1 := by
  have h := getTodos_failure_spec ⟨[], false⟩ "down"
    (FetchOutcome.success [⟨some 1, "a", false, some 1⟩]) rfl rfl
  exact ⟨rfl, rfl, h.1, h.2.2.2⟩

/-- Claim C5: `deleteTodo` keeps exactly the records whose id does not match (in order),
so every matching record is removed, the length decreases by exactly the number of
matching records, and the returned boolean is `true` iff a record with that id existed
immediately before the call. -/
theorem deleteTodo_spec (i : Int) (s : ServiceState) :
    (deleteTodo i s).2.todos = s.todos.filter (fun t => t.id != some i) ∧
    (∀ t ∈ (deleteTodo i s).2.todos, t.id ≠ some i) ∧
    (deleteTodo i s).2.todos.length + s.todos.countP (fun t => t.id == some i) =
      s.todos.length ∧
    ((deleteTodo i s).1 = true ↔ ∃ t ∈ s.todos, t.id = some i) := by
  have hlen : (deleteTodo i s).2.todos.length + s.todos.countP (fun t => t.id == some i) =
      s.todos.length := by
    show (s.todos.filter (fun t => t.id != some i)).length + _ = _
    rw [← List.countP_eq_length_filter]
    have h := countP_add_countP_not (fun t => t.id == some i) s.todos
    have hbne : s.todos.countP (fun t => t.id != some i) =
        s.todos.countP (fun t => !(t.id == some i)) := rfl
    omega
  refine ⟨rfl, ?_, hlen, ?_⟩
  · intro t ht
    have h := (List.mem_filter.mp ht).2
    simpa using h
  · have hdec : (deleteTodo i s).1 = true ↔
        (deleteTodo i s).2.todos.length < s.todos.length := by
      show decide _ = true ↔ _
      exact decide_eq_true_iff
    rw [hdec]
    constructor
    · intro h
      have hc : 0 < s.todos.countP (fun t => t.id == some i) := by omega
      have := List.countP_pos_iff.mp hc
      simpa using this
    · rintro ⟨t, ht, hid⟩
      have hc : 0 < s.todos.countP (fun t => t.id == some i) :=
        List.countP_pos_iff.mpr ⟨t, ht, by simp [hid]⟩
      omega

/-- Witness for the C5 theorem on the cache `[{id:1}, {id:2}, {id:1}]` deleting id `1`:
both matching records go, the length drops by 2, and the call returns `true`; the membership
consequence is instantiated at the surviving record. -/
theorem deleteTodo_spec_witness :
    (deleteTodo 1
        ⟨[⟨some 1, "a", false, some 1⟩, ⟨some 2, "b", false, some 1⟩,
          ⟨some 1, "c", true, some 1⟩], true⟩).2.todos = [⟨some 2, "b", false, some 1⟩] ∧
    ((⟨some 2, "b", false, some 1⟩ : ITodo) ∈
      (deleteTodo 1
        ⟨[⟨some 1, "a", false, some 1⟩, ⟨some 2, "b", false, some 1⟩,
          ⟨some 1, "c", true, some 1⟩], true⟩).2.todos) ∧
    ((⟨some 2, "b", false, some 1⟩ : ITodo).id ≠ some 1) ∧
    (deleteTodo 1
        ⟨[⟨some 1, "a", false, some 1⟩, ⟨some 2, "b", false, some 1⟩,
          ⟨some 1, "c", true, some 1⟩], true⟩).1 = true := by
  have h := deleteTodo_spec 1
    ⟨[⟨some 1, "a", false, some 1⟩, ⟨some 2, "b", false, some 1⟩,
      ⟨some 1, "c", true, some 1⟩], true⟩
  refine ⟨by decide, by decide, h.2.1 ⟨some 2, "b", false, some 1⟩ (by decide), ?_⟩
  exact h.2.2.2.mpr ⟨⟨some 1, "a", false, some 1⟩, by decide, by decide⟩

/-- Claim C6: starting from an empty cache, the ids assigned by any sequence of `addTodo`
calls are strictly increasing in call order (hence pairwise distinct); `updateTodo` never
changes the id of any cached record (the sequence of cached ids is preserved pointwise);
and id-uniqueness of the cache is preserved by `addTodo`, `updateTodo` and `deleteTodo`. -/
theorem id_assignment_invariants (drafts : List ITodo) (s : ServiceState)
    (todo : ITodo) (i : Int) (h : UniqueIds s.todos) :
    (runAdds drafts ⟨[], false⟩).1.Pairwise (fun a b => a < b) ∧
    (runAdds drafts ⟨[], false⟩).1.Nodup ∧
    (updateTodo todo s).2.todos.map ITodo.id = s.todos.map ITodo.id ∧
    UniqueIds (addTodo todo s).2.todos ∧
    UniqueIds (updateTodo todo s).2.todos ∧
    UniqueIds (deleteTodo i s).2.todos := by
  have hp := (runAdds_ids_spec drafts ⟨[], false⟩).1
  refine ⟨hp, hp.imp (fun hlt => ne_of_lt hlt), ?_,
    uniqueIds_addTodo todo s h, uniqueIds_updateTodo todo s h, uniqueIds_deleteTodo i s h⟩
  rw [updateTodo_todos, replaceFirst_map_id]

/-- Witness for the C6 theorem: two adds on a fresh service assign ids `1 < 2`; on the
concrete unique-id cache `[{id:3}]` the add/update/delete results keep ids unique. -/
theorem id_assignment_invariants_witness :
    UniqueIds [(⟨some 3, "x", false, some 1⟩ : ITodo)] ∧
    (runAdds [⟨none, "a", false, none⟩, ⟨none, "b", true, none⟩]
      ⟨[], false⟩).1.Pairwise (fun a b => a < b) ∧
    UniqueIds (addTodo ⟨some 3, "y", true, some 1⟩
      ⟨[⟨some 3, "x", false, some 1⟩], true⟩).2.todos ∧
    UniqueIds (updateTodo ⟨some 3, "y", true, some 1⟩
      ⟨[⟨some 3, "x", false, some 1⟩], true⟩).2.todos ∧
    UniqueIds (deleteTodo 3 ⟨[⟨some 3, "x", false, some 1⟩], true⟩).2.todos := by
  have h := id_assignment_invariants [⟨none, "a", false, none⟩, ⟨none, "b", true, none⟩]
    ⟨[⟨some 3, "x", false, some 1⟩], true⟩ ⟨some 3, "y", true, some 1⟩ 3 (by decide)
  exact ⟨by decide, h.1, h.2.2.2.1, h.2.2.2.2.1, h.2.2.2.2.2⟩

/-- Claim C7: `getTodoById` never modifies the state and never issues an outbound read; on
an empty cache (in particular before initialization) it returns `none`; when no cached
record has the id it returns `none`; and when some cached record has the id it returns a
matching cached record. -/
theorem getTodoById_spec (i : Int) :
    (∀ s : ServiceState, (getTodoById i s).2.1 = s ∧ (getTodoById i s).2.2 = 0) ∧
    (∀ s : ServiceState, s.todos = [] → (getTodoById i s).1 = none) ∧
    (∀ s : ServiceState, (∀ t ∈ s.todos, t.id ≠ some i) → (getTodoById i s).1 = none) ∧
    (∀ s : ServiceState, (∃ t ∈ s.todos, t.id = some i) →
      ∃ t, (getTodoById i s).1 = some t ∧ t ∈ s.todos ∧ t.id = some i) := by
  refine ⟨fun s => ⟨rfl, rfl⟩, ?_, ?_, ?_⟩
  · intro s h
    show s.todos.find? (fun t => t.id == some i) = none
    rw [h]
    rfl
  · intro s h
    show s.todos.find? (fun t => t.id == some i) = none
    rw [List.find?_eq_none]
    intro t ht
    simpa using h t ht
  · intro s hex
    cases hf : s.todos.find? (fun t => t.id == some i) with
    | none =>
      exfalso
      rcases hex with ⟨t, ht, hid⟩
      have := List.find?_eq_none.mp hf t ht
      simp [hid] at this
    | some t =>
      refine ⟨t, hf, List.mem_of_find?_eq_some hf, ?_⟩
      have := List.find?_some hf
      simpa using this

/-- Witness for the C7 theorem at id `2`: `none` on the empty cache, `none` on a
non-matching cache, and the matching record on a matching cache. -/
theorem getTodoById_spec_witness :
    (getTodoById 2 ⟨[], false⟩).1 = none ∧
    (getTodoById 2 ⟨[⟨some 1, "a", false, some 1⟩], true⟩).1 = none ∧
    (∃ t, (getTodoById 2 ⟨[⟨some 2, "b", true, some 1⟩], true⟩).1 = some t ∧
      t ∈ ([⟨some 2, "b", true, some 1⟩] : List ITodo) ∧ t.id = some 2) := by
  have h := getTodoById_spec 2
  exact ⟨h.2.1 ⟨[], false⟩ rfl, h.2.2.1 ⟨[⟨some 1, "a", false, some 1⟩], true⟩ (by decide),
    h.2.2.2 ⟨[⟨some 2, "b", true, some 1⟩], true⟩ (by decide)⟩

/-- Claim C8: the Row Filter returns `items` unchanged when the sequence is absent or the
field name is empty, and otherwise exactly the in-order sub-sequence of records whose named
field strictly equals the target value (the result is a sublist of the input, and a record
is in it iff it is in the input with the named field equal to the target).  Over the
three-record scenario, filtering `completed = true` keeps exactly the one completed record
and `completed = false` exactly the two pending ones.  (The function is pure in this
embedding, so the input list is never mutated.) -/
theorem transform_spec (field : String) (value : JSVal) :
    FilterPipe.transform none field value = none ∧
    (∀ l : List ITodo, FilterPipe.transform (some l) "" value = some l) ∧
    (∀ l : List ITodo, field ≠ "" →
      FilterPipe.transform (some l) field value =
        some (l.filter (fun item => fieldVal item field == value)) ∧
      (l.filter (fun item => fieldVal item field == value)).Sublist l ∧
      (∀ t, t ∈ l.filter (fun item => fieldVal item field == value) ↔
        t ∈ l ∧ fieldVal t field = value)) ∧
    FilterPipe.transform
        (some [⟨some 1, "t1", false, some 1⟩, ⟨some 2, "t2", true, some 1⟩,
               ⟨some 3, "t3", false, some 1⟩])
        "completed" (JSVal.bool true) =
      some [⟨some 2, "t2", true, some 1⟩] ∧
    FilterPipe.transform
        (some [⟨some 1, "t1", false, some 1⟩, ⟨some 2, "t2", true, some 1⟩,
               ⟨some 3, "t3", false, some 1⟩])
        "completed" (JSVal.bool false) =
      some [⟨some 1, "t1", false, some 1⟩, ⟨some 3, "t3", false, some 1⟩] := by
  refine ⟨rfl, ?_, ?_, by decide, by decide⟩
  · intro l
    simp [FilterPipe.transform]
  · intro l h
    refine ⟨by simp [FilterPipe.transform, h], List.filter_sublist _, ?_⟩
    intro t
    rw [List.mem_filter]
    simp

/-- Witness for the C8 theorem: the non-empty field name "completed" on a concrete list,
with the membership characterization instantiated at the completed record. -/
theorem transform_spec_witness :
    ("completed" ≠ "") ∧
    FilterPipe.transform (some [⟨some 2, "t2", true, some 1⟩]) "completed"
        (JSVal.bool true) =
      some (([⟨some 2, "t2", true, some 1⟩] : List ITodo).filter
        (fun item => fieldVal item "completed" == JSVal.bool true)) ∧
    ((⟨some 2, "t2", true, some 1⟩ : ITodo) ∈
        ([⟨some 2, "t2", true, some 1⟩] : List ITodo).filter
          (fun item => fieldVal item "completed" == JSVal.bool true) ↔
      (⟨some 2, "t2", true, some 1⟩ : ITodo) ∈ ([⟨some 2, "t2", true, some 1⟩] : List ITodo) ∧
        fieldVal ⟨some 2, "t2", true, some 1⟩ "completed" = JSVal.bool true) := by
  have h := transform_spec "completed" (JSVal.bool true)
  have h3 := h.2.2.1 [⟨some 2, "t2", true, some 1⟩] (by decide)
  exact ⟨by decide, h3.1, h3.2.2 ⟨some 2, "t2", true, some 1⟩⟩

/-- Claim C9 (implicit): none of `addTodo`, `updateTodo`, `deleteTodo` changes the
initialization flag (in particular none sets it), and a successful first `getTodos` replaces
the whole cached sequence by the at-most-20-entry fetched prefix, regardless of what the
cache held — so records added (or update/delete effects applied) before the first successful
fetch are discarded by it. -/
theorem mutations_never_initialize (s : ServiceState) (d todo : ITodo) (i : Int)
    (body : List ITodo) :
    (addTodo d s).2.isInit = s.isInit ∧
    (updateTodo todo s).2.isInit = s.isInit ∧
    (deleteTodo i s).2.isInit = s.isInit ∧
    (s.isInit = false →
      (getTodos s (FetchOutcome.success body)).2.1.todos = body.take 20) ∧
    (s.isInit = false →
      (getTodos (addTodo d s).2 (FetchOutcome.success body)).2.1.todos = body.take 20) := by
  refine ⟨rfl, updateTodo_isInit todo s, rfl, ?_, ?_⟩
  · intro h
    simp [getTodos, h]
  · intro h
    have hadd : (addTodo d s).2.isInit = false := h ▸ rfl
    simp [getTodos, hadd]

/-- Witness for the C9 theorem: a record added on a fresh service is discarded by the first
successful fetch, whose 1-element body becomes the whole cache. -/
theorem mutations_never_initialize_witness :
    ((⟨[], false⟩ : ServiceState).isInit = false) ∧
    (addTodo ⟨none, "mine", false, none⟩ ⟨[], false⟩).2.isInit = false ∧
    (getTodos (addTodo ⟨none, "mine", false, none⟩ ⟨[], false⟩).2
        (FetchOutcome.success [⟨some 7, "remote", true, some 1⟩])).2.1.todos =
      [⟨some 7, "remote", true, some 1⟩] := by
  have h := mutations_never_initialize ⟨[], false⟩ ⟨none, "mine", false, none⟩
    ⟨none, "mine", false, none⟩ 0 [⟨some 7, "remote", true, some 1⟩]
  exact ⟨rfl, h.1, h.2.2.2.2 rfl⟩

/-- Claim C10 (implicit): `addTodo` overwrites whatever id and owner the caller's draft
carried — the result is literally the same for any draft id and any draft userId — while
keeping the draft's title and completed flag; the stored front record is the returned one,
its id is the freshly computed one and its owner the constant `1`. -/
theorem addTodo_overrides_draft_identity (draft : ITodo) (s : ServiceState)
    (j u : Option Int) :
    (addTodo draft s).1.id = some (maxTodoId s.todos + 1) ∧
    (addTodo draft s).1.userId = some 1 ∧
    (addTodo draft s).1.title = draft.title ∧
    (addTodo draft s).1.completed = draft.completed ∧
    addTodo ⟨j, draft.title, draft.completed, u⟩ s = addTodo draft s ∧
    (addTodo draft s).2.todos.head? = some (addTodo draft s).1 :=
  ⟨rfl, rfl, rfl, rfl, rfl, rfl⟩
